import Mathlib

/-!
Verification of the CourSys timetable enumeration engine.

The embedded program is `src/utils/timetableGenerator.tsx`: day/time string
parsing (`getDays`, `timeToMinutes`), the entry-level conflict test
(`hasConflict`), the section-level conflict test (`sectionConflicts`), and the
depth-first backtracking enumeration (`generateTimetables` with its inner
`backtrack`).  Data types follow the `Schedule` / `Section` interfaces
declared in the repository's course-browser page.
-/

namespace CourSys

/-- One row of a section's weekly schedule (the `Schedule` interface of the
repository).  The timetable generator reads only `days` and `time`; `type`
is kept because conflict checking treats all entry kinds (lecture, lab,
exam, ...) alike, and the remaining source fields (`start`, `end`, `room`,
`instructor`, `id`) are never read by the generator and are omitted. -/
structure Schedule where
  type : String
  days : String
  time : String
deriving DecidableEq, Repr

/-- A course section (the `Section` interface of the repository).  Only
`schedule` is read by the generator; `id` is kept to tell concrete sections
apart, and the other source fields (crn, subject, title, seats, ...) are
omitted as unread. -/
structure Section where
  id : String
  schedule : List Schedule
deriving DecidableEq, Repr

/-- Modelled from the spec: a `Course` is "a subject + code key and an
ordered sequence of candidate Section" (spec section 3); the type file
`src/types/Course` is not among the sources, and the generator reads only
`course.sections`, so the key fields are omitted as unread. -/
structure Course where
  sections : List Section
deriving DecidableEq, Repr

/-- Source `getDays` (timetableGenerator.tsx lines 6-15): convert a day
string such as `"M-W----"` to the list of indices `i` with `dayStr[i] ≠ '-'`
(0 = Monday), in increasing index order, exactly as the source loop pushes
them. -/
def getDays (dayStr : String) : List Nat :=
  (List.range dayStr.length).filter fun i => dayStr.data.getD i '-' != '-'

/-- JavaScript `parseInt` restricted to the validated inputs this program
receives (strings of decimal digits): the value of the longest digit prefix,
`0` when there is none.  Malformed encodings never reach the engine
(spec section 7, `MalformedSchedule`). -/
def parseIntNat (s : List Char) : Nat :=
  (s.takeWhile Char.isDigit).foldl (fun a c => a * 10 + (c.toNat - 48)) 0

/-- JavaScript `String.prototype.split('-')` on the character list of the
string: maximal runs of non-dash characters, with empty runs kept. -/
def splitDash : List Char → List (List Char)
  | [] => [[]]
  | c :: rest =>
    if c = '-' then [] :: splitDash rest
    else
      match splitDash rest with
      | [] => [[c]]
      | h :: t => (c :: h) :: t

/-- Result type of `timeToMinutes` (the source returns the object literal
`{ start, end }`). -/
structure TimeRange where
  start : Nat
  «end» : Nat
deriving DecidableEq, Repr

/-- One bound of the source `timeToMinutes` (timetableGenerator.tsx lines
18-24): `parseInt(part.slice(0, 2)) * 60 + parseInt(part.slice(2))`. -/
def parseTimePart (s : List Char) : Nat :=
  parseIntNat (s.take 2) * 60 + parseIntNat (s.drop 2)

/-- Source `timeToMinutes` (timetableGenerator.tsx lines 18-24): split a
time string such as `"1830-2120"` on `'-'` and convert both 4-digit parts to
minutes from midnight.  The source destructures the first two pieces of the
split; on validated input exactly two pieces exist, and `getD _ []` is a
total stand-in never exercised otherwise. -/
def timeToMinutes (time : String) : TimeRange :=
  let parts := splitDash time.data
  { start := parseTimePart (parts.getD 0 [])
    «end» := parseTimePart (parts.getD 1 []) }

/-- Source `hasConflict` (timetableGenerator.tsx lines 27-40): two schedule
entries conflict when they share at least one marked day index and their
minute ranges overlap as open intervals
(`!(time1.end <= time2.start || time2.end <= time1.start)`). -/
def hasConflict (schedule1 schedule2 : Schedule) : Bool :=
  let days1 := getDays schedule1.days
  let days2 := getDays schedule2.days
  let time1 := timeToMinutes schedule1.time
  let time2 := timeToMinutes schedule2.time
  let commonDays := days1.filter fun day => days2.contains day
  if commonDays.length = 0 then false
  else !(decide (time1.«end» ≤ time2.start) || decide (time2.«end» ≤ time1.start))

/-- Source `sectionConflicts` (timetableGenerator.tsx lines 43-54): a section
conflicts with a list of already-selected sections when any schedule entry of
the section conflicts with any schedule entry of any selected section (the
source's triple loop with early `return true` is the nested `any`). -/
def sectionConflicts (sec : Section) (selectedSections : List Section) : Bool :=
  selectedSections.any fun selected =>
    sec.schedule.any fun schedule1 =>
      selected.schedule.any fun schedule2 =>
        hasConflict schedule1 schedule2

/-- Source `backtrack` (timetableGenerator.tsx lines 59-74).  The source
closure recurses on a course index into the fixed `courses` array; here the
remaining suffix (`courses.drop courseIndex`) is passed instead, so
`remaining = []` is the source's `courseIndex === courses.length`.  The
mutable `timetables` accumulator is threaded through the section loop as the
`foldl` state, and `push`/`pop` of the partial assignment becomes passing
`currentTimetable ++ [sec]` down to the recursive call. -/
def backtrack (maxTimetables : Nat) :
    List Course → List Section → List (List Section) → List (List Section)
  | remaining, currentTimetable, timetables =>
    if timetables.length ≥ maxTimetables then timetables
    else
      match remaining with
      | [] => timetables ++ [currentTimetable]
      | course :: rest =>
        course.sections.foldl
          (fun acc sec =>
            if sectionConflicts sec currentTimetable then acc
            else backtrack maxTimetables rest (currentTimetable ++ [sec]) acc)
          timetables

/-- Source `generateTimetables` (timetableGenerator.tsx lines 56-78): run the
backtracking search from course index 0 with empty partial assignment and
empty accumulator.  The source's default `maxTimetables = 999` is a caller
concern and is not modelled; the limit is passed explicitly. -/
def generateTimetables (courses : List Course) (maxTimetables : Nat) :
    List (List Section) :=
  backtrack maxTimetables courses [] []

/-- Modelled from the spec: the full Cartesian product of the per-course
section lists, "trying sections in each course's given input order,
depth-first" (spec sections 4.2 and 8) — the brute-force enumeration order
of the completeness oracle. -/
def cartesianProduct : List Course → List (List Section)
  | [] => [[]]
  | course :: rest =>
    course.sections.flatMap fun sec =>
      (cartesianProduct rest).map fun tail => sec :: tail

/-- Modelled from the spec: the "pairwise-conflict-free" filter of the
brute-force oracle (spec section 8) — every section of the list is free of
conflicts with every section after it, hence with every other section. -/
def conflictFreeB : List Section → Bool
  | [] => true
  | sec :: rest => !(sectionConflicts sec rest) && conflictFreeB rest

/-- Modelled from the spec: "brute-force Cartesian enumeration with explicit
conflict filtering" (spec section 8), the property-test oracle for
completeness. -/
def bruteForceTimetables (courses : List Course) : List (List Section) :=
  (cartesianProduct courses).filter fun t => conflictFreeB t

/-- The list of complete conflict-free extensions of the partial assignment
`currentTimetable` through the remaining courses, in the search's
depth-first order — the limit-free solution set that `backtrack` collects a
prefix of. -/
def extensions : List Course → List Section → List (List Section)
  | [], currentTimetable => [currentTimetable]
  | course :: rest, currentTimetable =>
    course.sections.flatMap fun sec =>
      if sectionConflicts sec currentTimetable then []
      else extensions rest (currentTimetable ++ [sec])

/-- Whether a list of sections is a conflict-free extension of the partial
assignment `currentTimetable`: each element passes the search's admission
test `sectionConflicts` against the assignment accumulated before it. -/
def okExt : List Section → List Section → Bool
  | _, [] => true
  | currentTimetable, sec :: rest =>
    !(sectionConflicts sec currentTimetable) && okExt (currentTimetable ++ [sec]) rest

/-- Instrumented copy of `backtrack` that additionally records, for every
candidate section tried by the section loop (every execution of the source's
loop body, which begins with the `sectionConflicts` test), the number of
results already accumulated at that moment.  The first component is the
ordinary `backtrack` result. -/
def backtrackTrace (maxTimetables : Nat) :
    List Course → List Section →
      List (List Section) × List Nat → List (List Section) × List Nat
  | remaining, currentTimetable, acc =>
    if acc.1.length ≥ maxTimetables then acc
    else
      match remaining with
      | [] => (acc.1 ++ [currentTimetable], acc.2)
      | course :: rest =>
        course.sections.foldl
          (fun acc2 sec =>
            let acc3 := (acc2.1, acc2.2 ++ [acc2.1.length])
            if sectionConflicts sec currentTimetable then acc3
            else backtrackTrace maxTimetables rest (currentTimetable ++ [sec]) acc3)
          acc

/-- `generateTimetables` with the trial trace of `backtrackTrace`. -/
def generateTimetablesTrace (courses : List Course) (maxTimetables : Nat) :
    List (List Section) × List Nat :=
  backtrackTrace maxTimetables courses [] ([], [])

/-! Concrete inputs used by witnesses and counterexamples. -/

/-- Concrete lecture entry: Monday and Wednesday, 09:00-10:00. -/
def wsMonWed9 : Schedule := { type := "Lecture", days := "M-W----", time := "0900-1000" }

/-- Concrete lecture entry: Tuesday, 09:00-11:00. -/
def wsTue9 : Schedule := { type := "Lecture", days := "-T-----", time := "0900-1100" }

/-- Concrete exam entry: Monday, degenerate instant 09:30. -/
def wsExamMon : Schedule := { type := "Exam", days := "M------", time := "0930-0930" }

/-- Concrete section with the Monday/Wednesday lecture. -/
def wsecMonWed : Section := { id := "A1", schedule := [wsMonWed9] }

/-- Concrete section with the Tuesday lecture. -/
def wsecTue : Section := { id := "B1", schedule := [wsTue9] }

/-- Concrete section with the Monday exam instant. -/
def wsecExam : Section := { id := "E1", schedule := [wsExamMon] }

/-- Concrete section with no schedule entries at all. -/
def wsecFree1 : Section := { id := "F1", schedule := [] }

/-- Second concrete section with no schedule entries. -/
def wsecFree2 : Section := { id := "F2", schedule := [] }

/-- Concrete two-course input whose sections never conflict. -/
def wcourses : List Course := [⟨[wsecMonWed]⟩, ⟨[wsecTue]⟩]

/-- Concrete one-course input with two never-conflicting sections. -/
def wcourseAB : Course := ⟨[wsecFree1, wsecFree2]⟩

/-- Concrete exam entry on Monday and Wednesday at the same degenerate
instant 09:30. -/
def wsExamMonWed : Schedule := { type := "Exam", days := "M-W----", time := "0930-0930" }

/-- Concrete course list whose second course has zero sections. -/
def wcoursesEmpty : List Course := [⟨[wsecMonWed]⟩, ⟨[]⟩]

/-! Helper lemmas. -/

/-- Two booleans agreeing as propositions are equal. -/
theorem bool_eq_of_iff {a b : Bool} (h : a = true ↔ b = true) : a = b := by
  cases a <;> cases b <;> simp_all

/-- Characterization of the entry-level conflict test: shared marked day and
strict open-interval overlap of the parsed minute ranges. -/
theorem hasConflict_eq_true_iff (s1 s2 : Schedule) :
    hasConflict s1 s2 = true ↔
      ((∃ d, d ∈ getDays s1.days ∧ d ∈ getDays s2.days) ∧
       (timeToMinutes s1.time).start < (timeToMinutes s2.time).«end» ∧
       (timeToMinutes s2.time).start < (timeToMinutes s1.time).«end») := by
  simp only [hasConflict]
  by_cases h : ((getDays s1.days).filter fun day => (getDays s2.days).contains day).length = 0
  · rw [if_pos h]
    constructor
    · intro hff; exact absurd hff (by simp)
    · rintro ⟨⟨d, hd1, hd2⟩, -, -⟩
      have hnil := List.length_eq_zero.mp h
      have hmem : d ∈ (getDays s1.days).filter fun day => (getDays s2.days).contains day := by
        rw [List.mem_filter]
        exact ⟨hd1, by simpa using hd2⟩
      rw [hnil] at hmem
      cases hmem
  · rw [if_neg h]
    have hex : ∃ d, d ∈ getDays s1.days ∧ d ∈ getDays s2.days := by
      have hpos : 0 < ((getDays s1.days).filter
          fun day => (getDays s2.days).contains day).length := Nat.pos_of_ne_zero h
      rcases List.exists_mem_of_length_pos hpos with ⟨d, hd⟩
      rcases List.mem_filter.mp hd with ⟨hd1, hd2⟩
      exact ⟨d, hd1, by simpa using hd2⟩
    simp only [Bool.not_eq_true', Bool.or_eq_false_iff, decide_eq_false_iff_not, Nat.not_le]
    constructor
    · rintro ⟨hx, hy⟩; exact ⟨hex, hy, hx⟩
    · rintro ⟨-, hy, hx⟩; exact ⟨hx, hy⟩

/-- The entry-level conflict test is symmetric. -/
theorem hasConflict_comm (s1 s2 : Schedule) : hasConflict s1 s2 = hasConflict s2 s1 :=
  bool_eq_of_iff (by
    rw [hasConflict_eq_true_iff, hasConflict_eq_true_iff]
    constructor
    · rintro ⟨⟨d, h1, h2⟩, t1, t2⟩; exact ⟨⟨d, h2, h1⟩, t2, t1⟩
    · rintro ⟨⟨d, h1, h2⟩, t1, t2⟩; exact ⟨⟨d, h2, h1⟩, t2, t1⟩)

/-- Nested `any` over two lists can be swapped. -/
theorem any_swap {α β} (l1 : List α) (l2 : List β) (f : α → β → Bool) :
    (l1.any fun a => l2.any fun b => f a b) = (l2.any fun b => l1.any fun a => f a b) :=
  bool_eq_of_iff (by
    simp only [List.any_eq_true]
    constructor
    · rintro ⟨a, ha, b, hb, hf⟩; exact ⟨b, hb, a, ha, hf⟩
    · rintro ⟨b, hb, a, ha, hf⟩; exact ⟨a, ha, b, hb, hf⟩)

/-- A section never conflicts with an empty selection. -/
theorem sectionConflicts_nil (sec : Section) : sectionConflicts sec [] = false := rfl

/-- The section-level conflict test distributes over list append. -/
theorem sectionConflicts_append (sec : Section) (l1 l2 : List Section) :
    sectionConflicts sec (l1 ++ l2)
      = (sectionConflicts sec l1 || sectionConflicts sec l2) := by
  simp [sectionConflicts, List.any_append]

/-- The section-level conflict test is the disjunction of its singleton
instances. -/
theorem sectionConflicts_eq_any (sec : Section) (l : List Section) :
    sectionConflicts sec l = l.any fun x => sectionConflicts sec [x] := by
  induction l with
  | nil => rfl
  | cons x xs ih =>
    have hx : x :: xs = [x] ++ xs := rfl
    rw [hx, sectionConflicts_append, List.any_append, ih]
    simp [List.any_cons]

/-- The singleton section-level conflict test is symmetric. -/
theorem sectionConflicts_singleton_comm (a b : Section) :
    sectionConflicts a [b] = sectionConflicts b [a] := by
  simp only [sectionConflicts, List.any_cons, List.any_nil, Bool.or_false]
  rw [any_swap]
  exact bool_eq_of_iff (by
    simp only [List.any_eq_true]
    constructor
    · rintro ⟨y, hy, x, hx, hf⟩
      exact ⟨y, hy, x, hx, by rw [hasConflict_comm]; exact hf⟩
    · rintro ⟨y, hy, x, hx, hf⟩
      exact ⟨y, hy, x, hx, by rw [hasConflict_comm]; exact hf⟩)

/-- A section conflicts with none of a selection iff it conflicts with no
single member of it. -/
theorem sectionConflicts_eq_false_iff (sec : Section) (l : List Section) :
    sectionConflicts sec l = false ↔ ∀ x ∈ l, sectionConflicts sec [x] = false := by
  rw [sectionConflicts_eq_any, List.any_eq_false]
  simp

/-- A list accepted by the brute-force filter is pairwise conflict-free. -/
theorem conflictFreeB_pairwise {t : List Section} (h : conflictFreeB t = true) :
    List.Pairwise (fun a b => sectionConflicts a [b] = false) t := by
  induction t with
  | nil => exact List.Pairwise.nil
  | cons s rest ih =>
    simp only [conflictFreeB, Bool.and_eq_true, Bool.not_eq_true'] at h
    obtain ⟨h1, h2⟩ := h
    exact List.Pairwise.cons
      (fun x hx => (sectionConflicts_eq_false_iff s rest).mp h1 x hx) (ih h2)

/-- `any` of a pointwise disjunction is the disjunction of the `any`s. -/
theorem any_or_distrib {α} (l : List α) (p q : α → Bool) :
    (l.any fun x => p x || q x) = (l.any p || l.any q) := by
  induction l with
  | nil => rfl
  | cons x xs ih =>
    simp only [List.any_cons, ih]
    cases p x <;> cases q x <;> simp

/-- `okExt` splits into freedom from the committed prefix and internal
freedom of the extension. -/
theorem okExt_eq (t : List Section) :
    ∀ currentTimetable, okExt currentTimetable t =
      ((!(t.any fun sec => sectionConflicts sec currentTimetable)) && okExt [] t) := by
  induction t with
  | nil => intro c; rfl
  | cons s rest ih =>
    intro c
    show (!(sectionConflicts s c) && okExt (c ++ [s]) rest) = _
    rw [ih (c ++ [s])]
    have h1 : okExt [] (s :: rest) = okExt [s] rest := by
      show (!(sectionConflicts s []) && okExt ([] ++ [s]) rest) = _
      simp [sectionConflicts_nil]
    rw [h1, ih [s]]
    simp only [sectionConflicts_append, any_or_distrib, List.any_cons]
    cases hA : sectionConflicts s c <;>
      cases hB : rest.any (fun sec => sectionConflicts sec c) <;>
        cases hC : rest.any (fun sec => sectionConflicts sec [s]) <;> simp

/-- On an empty committed prefix, `okExt` is the brute-force filter. -/
theorem okExt_nil_eq_conflictFreeB (t : List Section) : okExt [] t = conflictFreeB t := by
  induction t with
  | nil => rfl
  | cons s rest ih =>
    show (!(sectionConflicts s []) && okExt ([] ++ [s]) rest) = _
    rw [sectionConflicts_nil]
    simp only [Bool.not_false, Bool.true_and, List.nil_append]
    rw [okExt_eq rest [s], ih]
    have hswap : (rest.any fun sec => sectionConflicts sec [s]) = sectionConflicts s rest := by
      rw [sectionConflicts_eq_any s rest]
      congr 1
      funext x
      exact sectionConflicts_singleton_comm x s
    rw [hswap]
    rfl

/-- The search's solution set below a partial assignment is the filtered,
shifted Cartesian product of the remaining courses. -/
theorem extensions_eq (remaining : List Course) :
    ∀ currentTimetable, extensions remaining currentTimetable =
      ((cartesianProduct remaining).filter (okExt currentTimetable)).map
        fun t => currentTimetable ++ t := by
  induction remaining with
  | nil =>
    intro c
    show [c] = (([[]] : List (List Section)).filter (okExt c)).map fun t => c ++ t
    simp [okExt]
  | cons course rest ih =>
    intro c
    show (course.sections.flatMap fun sec =>
        if sectionConflicts sec c then [] else extensions rest (c ++ [sec])) = _
    simp only [cartesianProduct]
    generalize course.sections = ss
    induction ss with
    | nil => simp
    | cons s ss ihs =>
      simp only [List.flatMap_cons, List.filter_append, List.map_append]
      rw [ihs]
      congr 1
      rw [List.filter_map]
      by_cases hc : sectionConflicts s c = true
      · rw [if_pos hc]
        have hnil : ((cartesianProduct rest).filter ((okExt c) ∘ fun t => s :: t)) = [] := by
          apply List.filter_eq_nil_iff.mpr
          intro t ht
          show ¬ okExt c (s :: t) = true
          show ¬ ((!(sectionConflicts s c)) && okExt (c ++ [s]) t) = true
          simp [hc]
        rw [hnil]
        rfl
      · rw [if_neg hc]
        rw [ih (c ++ [s])]
        have hfe : ((okExt c) ∘ fun t => s :: t) = okExt (c ++ [s]) := by
          funext t
          show okExt c (s :: t) = okExt (c ++ [s]) t
          show ((!(sectionConflicts s c)) && okExt (c ++ [s]) t) = okExt (c ++ [s]) t
          rw [Bool.not_eq_true] at hc
          simp [hc]
        rw [hfe, List.map_map]
        congr 1
        funext t
        show (c ++ [s]) ++ t = c ++ (s :: t)
        simp

/-- From the empty partial assignment, the search's solution set is exactly
the brute-force oracle. -/
theorem extensions_nil_eq_bruteForce (courses : List Course) :
    extensions courses [] = bruteForceTimetables courses := by
  rw [extensions_eq courses []]
  unfold bruteForceTimetables
  have hok : okExt ([] : List Section) = fun t => conflictFreeB t := by
    funext t; exact okExt_nil_eq_conflictFreeB t
  rw [hok]
  simp

/-- Central lemma: `backtrack` returns its accumulator followed by exactly
the first `maxTimetables - timetables.length` solutions below the current
partial assignment, in depth-first order. -/
theorem backtrack_eq_take (maxTimetables : Nat) (remaining : List Course) :
    ∀ (currentTimetable : List Section) (timetables : List (List Section)),
      backtrack maxTimetables remaining currentTimetable timetables =
        timetables ++ (extensions remaining currentTimetable).take
          (maxTimetables - timetables.length) := by
  induction remaining with
  | nil =>
    intro c tt
    show (if tt.length ≥ maxTimetables then tt else tt ++ [c]) = _
    by_cases h : tt.length ≥ maxTimetables
    · rw [if_pos h, Nat.sub_eq_zero_of_le h]
      show tt = tt ++ ([c] : List (List Section)).take 0
      simp
    · rw [if_neg h]
      have h1 : 1 ≤ maxTimetables - tt.length := by omega
      rcases Nat.exists_eq_add_of_le h1 with ⟨k, hk⟩
      show tt ++ [c] = tt ++ ([c] : List (List Section)).take (maxTimetables - tt.length)
      rw [hk, show 1 + k = k + 1 from Nat.add_comm 1 k]
      simp
  | cons course rest ih =>
    intro c tt
    show (if tt.length ≥ maxTimetables then tt
        else course.sections.foldl
          (fun acc sec => if sectionConflicts sec c then acc
            else backtrack maxTimetables rest (c ++ [sec]) acc) tt) = _
    by_cases h : tt.length ≥ maxTimetables
    · rw [if_pos h, Nat.sub_eq_zero_of_le h]
      simp
    · rw [if_neg h]
      have aux : ∀ (ss : List Section) (acc : List (List Section)),
          ss.foldl (fun acc sec => if sectionConflicts sec c then acc
            else backtrack maxTimetables rest (c ++ [sec]) acc) acc
          = acc ++ (ss.flatMap fun sec =>
              if sectionConflicts sec c then []
              else extensions rest (c ++ [sec])).take (maxTimetables - acc.length) := by
        intro ss
        induction ss with
        | nil => intro acc; simp
        | cons s ss ihs =>
          intro acc
          simp only [List.foldl_cons, List.flatMap_cons]
          by_cases hc : sectionConflicts s c = true
          · rw [if_pos hc, if_pos hc, ihs acc]
            simp
          · rw [if_neg hc, if_neg hc, ih (c ++ [s]) acc, ihs]
            rw [List.append_assoc]
            congr 1
            rw [List.take_append_eq_append_take]
            have hlen : maxTimetables -
                (acc ++ (extensions rest (c ++ [s])).take
                  (maxTimetables - acc.length)).length
                = (maxTimetables - acc.length) - (extensions rest (c ++ [s])).length := by
              simp only [List.length_append, List.length_take]
              omega
            rw [hlen]
      have hgoal := aux course.sections tt
      exact hgoal
      -- `extensions (course :: rest) c` unfolds definitionally to the flatMap

/-- `generateTimetables` is the `limit`-prefix of the brute-force oracle. -/
theorem generateTimetables_eq_take (courses : List Course) (limit : Nat) :
    generateTimetables courses limit = (bruteForceTimetables courses).take limit := by
  unfold generateTimetables
  rw [backtrack_eq_take limit courses [] []]
  simp [extensions_nil_eq_bruteForce]

/-- A course with no sections empties the Cartesian product. -/
theorem cartesianProduct_eq_nil {courses : List Course}
    (h : ∃ c ∈ courses, c.sections = []) : cartesianProduct courses = [] := by
  induction courses with
  | nil =>
    rcases h with ⟨c, hc, -⟩
    cases hc
  | cons course rest ih =>
    rcases h with ⟨c, hc, hcs⟩
    rcases List.mem_cons.mp hc with rfl | hmem
    · show c.sections.flatMap _ = []
      rw [hcs]
      rfl
    · show course.sections.flatMap (fun sec => (cartesianProduct rest).map _) = []
      rw [ih ⟨c, hmem, hcs⟩]
      simp

/-- The instrumented search computes the same result list as `backtrack`. -/
theorem backtrackTrace_fst (maxTimetables : Nat) (remaining : List Course) :
    ∀ (currentTimetable : List Section) (acc : List (List Section) × List Nat),
      (backtrackTrace maxTimetables remaining currentTimetable acc).1
        = backtrack maxTimetables remaining currentTimetable acc.1 := by
  induction remaining with
  | nil =>
    intro c acc
    show (if acc.1.length ≥ maxTimetables then acc else (acc.1 ++ [c], acc.2)).1
        = if acc.1.length ≥ maxTimetables then acc.1 else acc.1 ++ [c]
    by_cases h : acc.1.length ≥ maxTimetables
    · rw [if_pos h, if_pos h]
    · rw [if_neg h, if_neg h]
  | cons course rest ih =>
    intro c acc
    show (if acc.1.length ≥ maxTimetables then acc
        else course.sections.foldl
          (fun acc2 sec =>
            let acc3 := (acc2.1, acc2.2 ++ [acc2.1.length])
            if sectionConflicts sec c then acc3
            else backtrackTrace maxTimetables rest (c ++ [sec]) acc3)
          acc).1
        = if acc.1.length ≥ maxTimetables then acc.1
          else course.sections.foldl
            (fun acc2 sec => if sectionConflicts sec c then acc2
              else backtrack maxTimetables rest (c ++ [sec]) acc2)
            acc.1
    by_cases h : acc.1.length ≥ maxTimetables
    · rw [if_pos h, if_pos h]
    · rw [if_neg h, if_neg h]
      have aux : ∀ (ss : List Section) (a : List (List Section) × List Nat),
          (ss.foldl (fun acc2 sec =>
              let acc3 := (acc2.1, acc2.2 ++ [acc2.1.length])
              if sectionConflicts sec c then acc3
              else backtrackTrace maxTimetables rest (c ++ [sec]) acc3) a).1
          = ss.foldl (fun acc2 sec => if sectionConflicts sec c then acc2
              else backtrack maxTimetables rest (c ++ [sec]) acc2) a.1 := by
        intro ss
        induction ss with
        | nil => intro a; rfl
        | cons s ss ihs =>
          intro a
          simp only [List.foldl_cons]
          by_cases hc : sectionConflicts s c = true
          · rw [if_pos hc, if_pos hc]
            exact ihs (a.1, a.2 ++ [a.1.length])
          · rw [if_neg hc, if_neg hc]
            have hstep := ihs (backtrackTrace maxTimetables rest (c ++ [s])
              (a.1, a.2 ++ [a.1.length]))
            rw [hstep, ih (c ++ [s]) (a.1, a.2 ++ [a.1.length])]
      exact aux course.sections acc

/-! Claim theorems. -/

/-- C1: for every list of courses and every limit, every timetable returned
by `generateTimetables` is pairwise conflict-free — for every pair of
sections at distinct positions of a returned timetable, the section-level
test `sectionConflicts` reports no conflict between them. -/
theorem generateTimetables_pairwise_conflict_free
    (courses : List Course) (limit : Nat) (t : List Section)
    (ht : t ∈ generateTimetables courses limit)
    (i j : Nat) (hi : i < t.length) (hj : j < t.length) (hij : i ≠ j) :
    sectionConflicts (t.get ⟨i, hi⟩) [t.get ⟨j, hj⟩] = false := by
  rw [generateTimetables_eq_take] at ht
  have ht2 : t ∈ bruteForceTimetables courses := List.mem_of_mem_take ht
  have hfree : conflictFreeB t = true := (List.mem_filter.mp ht2).2
  have hp := conflictFreeB_pairwise hfree
  rw [List.pairwise_iff_get] at hp
  rcases Nat.lt_or_ge i j with hlt | hge
  · exact hp ⟨i, hi⟩ ⟨j, hj⟩ hlt
  · have hlt : j < i := by omega
    have hji := hp ⟨j, hj⟩ ⟨i, hi⟩ hlt
    rw [sectionConflicts_singleton_comm]
    exact hji

/-- Witness for C1: the unique timetable of the concrete two-course input is
returned and its two sections do not conflict. -/
theorem generateTimetables_pairwise_conflict_free_witness :
    [wsecMonWed, wsecTue] ∈ generateTimetables wcourses 10 ∧
      sectionConflicts wsecMonWed [wsecTue] = false :=
  ⟨by decide, generateTimetables_pairwise_conflict_free wcourses 10
    [wsecMonWed, wsecTue] (by decide) 0 1 (by decide) (by decide) (by decide)⟩

/-- C2: the entry-level conflict test returns true iff the two entries share
at least one marked weekday slot and their minute ranges overlap as open
intervals (`entryA.start < entryB.end` and `entryB.start < entryA.end`); in
particular entries with no shared day never conflict, and back-to-back
entries on a shared day do not conflict. -/
theorem hasConflict_shared_day_overlap_iff (entryA entryB : Schedule) :
    hasConflict entryA entryB = true ↔
      ((∃ d, d ∈ getDays entryA.days ∧ d ∈ getDays entryB.days) ∧
       (timeToMinutes entryA.time).start < (timeToMinutes entryB.time).«end» ∧
       (timeToMinutes entryB.time).start < (timeToMinutes entryA.time).«end») :=
  hasConflict_eq_true_iff entryA entryB

/-- C3: when the limit is at least the number of conflict-free combinations,
`generateTimetables` returns exactly the brute-force filtered Cartesian
product — the same list, hence the same count and the same members. -/
theorem generateTimetables_eq_bruteForce_of_le_limit
    (courses : List Course) (limit : Nat)
    (h : (bruteForceTimetables courses).length ≤ limit) :
    generateTimetables courses limit = bruteForceTimetables courses := by
  rw [generateTimetables_eq_take]
  exact List.take_of_length_le h

/-- Witness for C3 at the concrete two-course input with a non-binding
limit. -/
theorem generateTimetables_eq_bruteForce_of_le_limit_witness :
    (bruteForceTimetables wcourses).length ≤ 10 ∧
      generateTimetables wcourses 10 = bruteForceTimetables wcourses :=
  ⟨by decide, generateTimetables_eq_bruteForce_of_le_limit wcourses 10 (by decide)⟩

/-- C4: for every list of courses and every limit, the number of returned
timetables never exceeds the limit, and at limit 0 the result is empty. -/
theorem generateTimetables_length_le_limit (courses : List Course) (limit : Nat) :
    (generateTimetables courses limit).length ≤ limit ∧
      generateTimetables courses 0 = [] := by
  constructor
  · rw [generateTimetables_eq_take]
    simp [List.length_take]
  · rw [generateTimetables_eq_take]
    simp

/-- C5 counterexample: with one course of two non-conflicting sections and
limit 1, the instrumented run records trials at accumulated counts
`[0, 1]` — the second candidate section is still tried (its
`sectionConflicts` check performed) when the result count already equals the
limit, refuting "no further candidate sections are tried and no further
conflict checks are performed". -/
theorem limit_pruning_counterexample :
    (generateTimetablesTrace [wcourseAB] 1).2 = [0, 1] ∧
      ¬(∀ n ∈ (generateTimetablesTrace [wcourseAB] 1).2, n < 1) :=
  ⟨by decide, by decide⟩

/-- C5 amended: once the accumulated result count has reached the limit,
every call of the search returns its accumulator immediately — it adds no
result, explores no branch and records no trial.  (The section loops of
frames already on the stack do still try their remaining candidates, each
trial performing one conflict check before the nested call returns
immediately, which is what the counterexample exhibits.) -/
theorem backtrackTrace_halts_at_limit (maxTimetables : Nat)
    (remaining : List Course) (currentTimetable : List Section)
    (timetables : List (List Section)) (trace : List Nat)
    (h : maxTimetables ≤ timetables.length) :
    backtrackTrace maxTimetables remaining currentTimetable (timetables, trace)
      = (timetables, trace) := by
  cases remaining with
  | nil =>
    show (if (timetables, trace).1.length ≥ maxTimetables then (timetables, trace)
      else ((timetables, trace).1 ++ [currentTimetable], (timetables, trace).2)) = _
    rw [if_pos h]
  | cons course rest =>
    show (if (timetables, trace).1.length ≥ maxTimetables then (timetables, trace)
      else _) = _
    rw [if_pos h]

/-- Witness for C5's amended theorem: a full accumulator is returned
untouched. -/
theorem backtrackTrace_halts_at_limit_witness :
    (1 : Nat) ≤ [[wsecFree1]].length ∧
      backtrackTrace 1 [wcourseAB] [] ([[wsecFree1]], [0]) = ([[wsecFree1]], [0]) :=
  ⟨by decide, backtrackTrace_halts_at_limit 1 [wcourseAB] [] [[wsecFree1]] [0] (by decide)⟩

/-- C6: with an empty course list and any limit at least 1, exactly one
timetable is returned — the empty sequence. -/
theorem generateTimetables_nil_courses (limit : Nat) (h : 1 ≤ limit) :
    generateTimetables [] limit = [[]] := by
  rw [generateTimetables_eq_take]
  have hbf : bruteForceTimetables ([] : List Course) = [[]] := rfl
  rw [hbf]
  rcases Nat.exists_eq_add_of_le h with ⟨k, hk⟩
  rw [hk, show 1 + k = k + 1 from Nat.add_comm 1 k]
  simp

/-- Witness for C6 at limit 1. -/
theorem generateTimetables_nil_courses_witness :
    (1 : Nat) ≤ 1 ∧ generateTimetables ([] : List Course) 1 = [[]] :=
  ⟨by decide, generateTimetables_nil_courses 1 (by decide)⟩

/-- C7: if any course has zero candidate sections, `generateTimetables`
returns the empty list regardless of the other courses and of the limit —
no partial assignment is ever returned as a result. -/
theorem generateTimetables_empty_sections (courses : List Course) (limit : Nat)
    (h : ∃ c ∈ courses, c.sections = []) :
    generateTimetables courses limit = [] := by
  rw [generateTimetables_eq_take]
  unfold bruteForceTimetables
  rw [cartesianProduct_eq_nil h]
  simp

/-- Witness for C7: a second course with no sections empties the result. -/
theorem generateTimetables_empty_sections_witness :
    (∃ c ∈ wcoursesEmpty, c.sections = []) ∧
      generateTimetables wcoursesEmpty 5 = [] :=
  ⟨by decide, generateTimetables_empty_sections wcoursesEmpty 5 (by decide)⟩

/-- C8: `generateTimetables` is deterministic (a pure function of its two
arguments, so identical inputs give identical outputs) and returns exactly
the first `limit` elements of the brute-force enumeration in its depth-first
lexicographic order — sections tried in each course's input order, courses
in input order. -/
theorem generateTimetables_deterministic_lex_order
    (courses : List Course) (limit : Nat) :
    generateTimetables courses limit = (bruteForceTimetables courses).take limit :=
  generateTimetables_eq_take courses limit

/-- C9: a degenerate single-instant entry (parsed start = parsed end) never
conflicts with itself, nor with any other entry occupying the same
degenerate instant, even when days are shared, because the
strict-inequality overlap test fails at `start = end`. -/
theorem hasConflict_degenerate_instant (s1 s2 : Schedule)
    (h1 : (timeToMinutes s1.time).start = (timeToMinutes s1.time).«end»)
    (h2 : (timeToMinutes s2.time).start = (timeToMinutes s2.time).«end»)
    (h12 : (timeToMinutes s1.time).start = (timeToMinutes s2.time).start) :
    hasConflict s1 s1 = false ∧ hasConflict s1 s2 = false := by
  constructor
  · cases hcb : hasConflict s1 s1 with
    | false => rfl
    | true =>
      exfalso
      rcases (hasConflict_eq_true_iff s1 s1).mp hcb with ⟨-, t1, -⟩
      omega
  · cases hcb : hasConflict s1 s2 with
    | false => rfl
    | true =>
      exfalso
      rcases (hasConflict_eq_true_iff s1 s2).mp hcb with ⟨-, t1, t2⟩
      omega

/-- Witness for C9: the Monday 09:30 exam instant against itself and against
a same-instant Monday/Wednesday copy. -/
theorem hasConflict_degenerate_instant_witness :
    (timeToMinutes wsExamMon.time).start = (timeToMinutes wsExamMon.time).«end» ∧
      (hasConflict wsExamMon wsExamMon = false ∧
        hasConflict wsExamMon wsExamMonWed = false) :=
  ⟨by decide, hasConflict_degenerate_instant wsExamMon wsExamMonWed
    (by decide) (by decide) (by decide)⟩

/-- C10: single-dated (degenerate) entries are not excluded from conflict
checking — regardless of the entries' `type` tags, if an entry of section A
has the degenerate range `[t, t]` and shares a marked weekday slot with an
entry of section B whose range strictly contains `t`, then
`sectionConflicts` reports a conflict, and consequently A and B never occupy
distinct positions of any timetable returned by `generateTimetables`. -/
theorem degenerate_entry_conflicts_and_eliminates
    (A B : Section) (a b : Schedule) (t : Nat)
    (ha : a ∈ A.schedule) (hb : b ∈ B.schedule)
    (hday : ∃ d, d ∈ getDays a.days ∧ d ∈ getDays b.days)
    (has : (timeToMinutes a.time).start = t)
    (hae : (timeToMinutes a.time).«end» = t)
    (hbs : (timeToMinutes b.time).start < t)
    (hbe : t < (timeToMinutes b.time).«end») :
    sectionConflicts A [B] = true ∧
      ∀ (courses : List Course) (limit : Nat) (tt : List Section),
        tt ∈ generateTimetables courses limit →
        ∀ (i j : Nat) (hi : i < tt.length) (hj : j < tt.length), i ≠ j →
          ¬(tt.get ⟨i, hi⟩ = A ∧ tt.get ⟨j, hj⟩ = B) := by
  have hab : hasConflict a b = true := by
    rw [hasConflict_eq_true_iff]
    exact ⟨hday, by omega, by omega⟩
  have hAB : sectionConflicts A [B] = true := by
    simp only [sectionConflicts, List.any_cons, List.any_nil, Bool.or_false]
    rw [List.any_eq_true]
    exact ⟨a, ha, List.any_eq_true.mpr ⟨b, hb, hab⟩⟩
  refine ⟨hAB, ?_⟩
  intro courses limit tt htt i j hi hj hij hcon
  obtain ⟨hA, hB⟩ := hcon
  rw [generateTimetables_eq_take] at htt
  have ht2 := List.mem_of_mem_take htt
  have hfree := (List.mem_filter.mp ht2).2
  have hp := conflictFreeB_pairwise hfree
  rw [List.pairwise_iff_get] at hp
  rcases Nat.lt_or_ge i j with hlt | hge
  · have hij2 := hp ⟨i, hi⟩ ⟨j, hj⟩ hlt
    rw [hA, hB, hAB] at hij2
    exact Bool.noConfusion hij2
  · have hlt : j < i := by omega
    have hji := hp ⟨j, hj⟩ ⟨i, hi⟩ hlt
    rw [hB, hA, sectionConflicts_singleton_comm, hAB] at hji
    exact Bool.noConfusion hji

/-- Witness for C10: the Monday 09:30 exam instant against the Monday
09:00-10:00 lecture that strictly contains it. -/
theorem degenerate_entry_conflicts_and_eliminates_witness :
    (wsExamMon ∈ wsecExam.schedule ∧
      (∃ d, d ∈ getDays wsExamMon.days ∧ d ∈ getDays wsMonWed9.days)) ∧
      sectionConflicts wsecExam [wsecMonWed] = true :=
  ⟨⟨by decide, ⟨0, by decide, by decide⟩⟩,
    (degenerate_entry_conflicts_and_eliminates wsecExam wsecMonWed wsExamMon wsMonWed9
      570 (by decide) (by decide) ⟨0, by decide, by decide⟩
      (by decide) (by decide) (by decide) (by decide)).1⟩

end CourSys
